import Mathlib

/-!
Verification of the AdEx neuron ensemble (`src/models/nodes/aEIF.py`).

The program is embedded shallowly over exact rationals `ℚ`.  NumPy float
arrays become `List ℚ`; `np.exp` is an explicit function parameter `eF`
(everything provable here is uniform in the value of the exponential);
NumPy's 1-D broadcasting rules and the shape error raised on incompatible
shapes are modelled by `bop`, which returns `none` exactly where NumPy
raises.  An exception aborts the call before any state assignment in the
scenarios considered, so a `none` result models "call fails, state
unmodified".  Boolean mask selection (`np.where` + fancy-index assignment)
over equal-length arrays is element-wise, and is written as `zipWith` over
the same arrays in the same order as the source lines.
-/

namespace AEIF

/-- Python's builtin `round` on a rational value: round half to even. -/
def pyRound (q : ℚ) : ℤ :=
  let f : ℤ := ⌊q⌋
  if q - f < 1/2 then f
  else if (1:ℚ)/2 < q - f then f + 1
  else if f % 2 = 0 then f else f + 1

/-- NumPy 1-D broadcasting for a binary arithmetic operation: equal lengths
act element-wise, a length-1 operand is broadcast, and any other shape pair
raises (modelled as `none`). -/
def bop (f : ℚ → ℚ → ℚ) (xs ys : List ℚ) : Option (List ℚ) :=
  if xs.length = ys.length then some (List.zipWith f xs ys)
  else if xs.length = 1 then some (ys.map (f (xs.headD 0)))
  else if ys.length = 1 then some (xs.map (fun x => f x (ys.headD 0)))
  else none

/-- The ensemble state: the scalar configuration set by `aEIF._params`,
the clock `t`, and the per-neuron vectors of `aEIF._vars` (plus `dw_dt`,
which `updateVar` stores on `self` for `_spikes_eval` to reuse). -/
@[ext]
structure aEIF where
  num : ℕ
  C : ℚ
  g_L : ℚ
  E_L : ℚ
  VT_rest : ℚ
  Delta_T : ℚ
  tau_w : ℚ
  a : ℚ
  b : ℚ
  w_jump : ℚ
  tau_wtail : ℚ
  tau_VT : ℚ
  VT_jump : ℚ
  th : ℚ
  t : ℚ
  Iex : ℚ
  t_spike : ℚ
  dt : ℚ
  mem : List ℚ
  w : List ℚ
  w_tail : List ℚ
  V_T : List ℚ
  counter : List ℤ
  dw_dt : List ℚ
deriving DecidableEq

/-- The external current argument `Io` of `aEIF.__call__`: a scalar or a
1-D array. -/
inductive Input where
  | scalar (v : ℚ)
  | vec (xs : List ℚ)
deriving DecidableEq

/-- `I = Io + self.Iex` (scalar bias added, broadcasting over an array). -/
def effI (inp : Input) (s : aEIF) : Input :=
  match inp with
  | .scalar v => .scalar (v + s.Iex)
  | .vec xs => .vec (xs.map (· + s.Iex))

/-- Adding the effective current `I` to an array (the `+ I` in `dmem_dt`):
a scalar adds element-wise, an array adds with broadcasting. -/
def addI (I : Input) (xs : List ℚ) : Option (List ℚ) :=
  match I with
  | .scalar v => some (xs.map (· + v))
  | .vec ys => bop (· + ·) xs ys

/-- `dmem_dt = 1/C * (-g_L*(mem - E_L) + g_L*Delta_T*exp((mem - V_T)/Delta_T)
- w + w_tail + I)`, with NumPy's evaluation order of the binary operations. -/
def dmemDt (eF : ℚ → ℚ) (I : Input) (s : aEIF) : Option (List ℚ) :=
  let t1 := s.mem.map (fun m => -s.g_L * (m - s.E_L))
  (bop (fun x y => x - y) s.mem s.V_T).bind fun t2 =>
  let t3 := t2.map (fun x => s.g_L * s.Delta_T * eF (x / s.Delta_T))
  (bop (· + ·) t1 t3).bind fun t4 =>
  (bop (fun x y => x - y) t4 s.w).bind fun t5 =>
  (bop (· + ·) t5 s.w_tail).bind fun t6 =>
  (addI I t6).bind fun t7 =>
  some (t7.map (fun x => 1 / s.C * x))

/-- `self.dw_dt = 1/tau_w * (a*(mem - E_L) - w)`. -/
def dwDt (s : aEIF) : Option (List ℚ) :=
  let u1 := s.mem.map (fun m => s.a * (m - s.E_L))
  (bop (fun x y => x - y) u1 s.w).bind fun u2 =>
  some (u2.map (fun x => 1 / s.tau_w * x))

/-- `aEIF.updateVar`: explicit Euler update of `mem`, `w`, `w_tail`, `V_T`,
storing `dw_dt`; `none` where NumPy raises a shape error (which in the
mismatched-input scenario happens inside the `dmem_dt` expression, before
any assignment to `self`). -/
def updateVar (eF : ℚ → ℚ) (I : Input) (s : aEIF) : Option aEIF :=
  (dmemDt eF I s).bind fun dmem =>
  (dwDt s).bind fun dw =>
  (bop (· + ·) s.mem (dmem.map (· * s.dt))).bind fun mem1 =>
  (bop (· + ·) s.w (dw.map (· * s.dt))).bind fun w1 =>
  some { s with
    mem := mem1
    w := w1
    w_tail := s.w_tail.map (fun z => z - z * s.dt / s.tau_wtail)
    V_T := s.V_T.map (fun v => s.VT_rest * s.dt / s.tau_VT + (1 - s.dt / s.tau_VT) * v)
    dw_dt := dw }

/-- `conut = self.t_spike / self.dt - 1`, the divisor of the parabolic
spike waveform. -/
def conut (s : aEIF) : ℚ := s.t_spike / s.dt - 1

/-- Mask of `spike_starts = np.where((mem > th) & (counter == 0))`. -/
def onsetMask (s : aEIF) : List Bool :=
  List.zipWith (fun (m : ℚ) (c : ℤ) => decide (s.th < m ∧ c = 0)) s.mem s.counter

/-- `self.mem[spike_starts] = 24.4`. -/
def mem1L (s : aEIF) : List ℚ :=
  List.zipWith (fun (o : Bool) m => if o then 24.4 else m) (onsetMask s) s.mem

/-- `self.counter[spike_starts] = 1`. -/
def counter1L (s : aEIF) : List ℤ :=
  List.zipWith (fun (o : Bool) c => if o then 1 else c) (onsetMask s) s.counter

/-- Mask of `active_spikes = np.where((dt * counter < t_spike) & (counter > 0))`,
evaluated on the counter array as already updated by the onset assignment. -/
def activeMask (s : aEIF) : List Bool :=
  (counter1L s).map (fun (c : ℤ) => decide (s.dt * (c : ℚ) < s.t_spike ∧ 0 < c))

/-- `self.mem[active_spikes] = 32.862 - 8.462 * np.abs(round(conut/2) -
counter[active_spikes]) / conut`. -/
def mem2L (s : aEIF) : List ℚ :=
  List.zipWith
    (fun (c : ℤ) m =>
      if s.dt * (c : ℚ) < s.t_spike ∧ 0 < c then
        32.862 - 8.462 * ((|pyRound (conut s / 2) - c| : ℤ) : ℚ) / conut s
      else m)
    (counter1L s) (mem1L s)

/-- `self.w[active_spikes] -= self.dw_dt[active_spikes] * self.dt`. -/
def w1L (s : aEIF) : List ℚ :=
  List.zipWith
    (fun (cd : ℤ × ℚ) w =>
      if s.dt * (cd.1 : ℚ) < s.t_spike ∧ 0 < cd.1 then w - cd.2 * s.dt else w)
    ((counter1L s).zip s.dw_dt) s.w

/-- `self.counter[active_spikes] += 1`. -/
def counter2L (s : aEIF) : List ℤ :=
  (counter1L s).map (fun (c : ℤ) => if s.dt * (c : ℚ) < s.t_spike ∧ 0 < c then c + 1 else c)

/-- Mask of `end_spikes = np.where(dt * counter >= t_spike)`, evaluated on
the counter array as already incremented by the active assignment. -/
def endMask (s : aEIF) : List Bool :=
  (counter2L s).map (fun (c : ℤ) => decide (s.t_spike ≤ s.dt * (c : ℚ)))

/-- `self.mem[end_spikes] = E_L + 15 + 6.0984`. -/
def mem3L (s : aEIF) : List ℚ :=
  List.zipWith
    (fun (c : ℤ) m => if s.t_spike ≤ s.dt * (c : ℚ) then s.E_L + 15 + 6.0984 else m)
    (counter2L s) (mem2L s)

/-- `self.w[end_spikes] += self.b`. -/
def w2L (s : aEIF) : List ℚ :=
  List.zipWith
    (fun (c : ℤ) w => if s.t_spike ≤ s.dt * (c : ℚ) then w + s.b else w)
    (counter2L s) (w1L s)

/-- `self.w_tail[end_spikes] = self.w_jump`. -/
def wt1L (s : aEIF) : List ℚ :=
  List.zipWith
    (fun (c : ℤ) z => if s.t_spike ≤ s.dt * (c : ℚ) then s.w_jump else z)
    (counter2L s) s.w_tail

/-- `self.V_T[end_spikes] = self.VT_jump + self.VT_rest`. -/
def vT1L (s : aEIF) : List ℚ :=
  List.zipWith
    (fun (c : ℤ) v => if s.t_spike ≤ s.dt * (c : ℚ) then s.VT_jump + s.VT_rest else v)
    (counter2L s) s.V_T

/-- `self.counter[end_spikes] = 0`. -/
def counter3L (s : aEIF) : List ℤ :=
  (counter2L s).map (fun (c : ℤ) => if s.t_spike ≤ s.dt * (c : ℚ) then 0 else c)

/-- `aEIF._spikes_eval(self.mem)`: the three mask assignments in source
order (onset, active, end), each mask evaluated on the arrays as left by
the preceding assignments. -/
def spikes_eval (s : aEIF) : aEIF :=
  { s with
    mem := mem3L s
    w := w2L s
    w_tail := wt1L s
    V_T := vT1L s
    counter := counter3L s }

/-- `aEIF.__call__(Io)`: effective current, Euler update, spike handling,
then `self.t += self.dt`. -/
def step (eF : ℚ → ℚ) (inp : Input) (s : aEIF) : Option aEIF :=
  (updateVar eF (effI inp s) s).map fun u =>
    let s2 := spikes_eval u
    { s2 with t := s2.t + s2.dt }

/-- All six per-neuron vectors have length `num`. -/
def wfS (s : aEIF) : Prop :=
  s.mem.length = s.num ∧ s.w.length = s.num ∧ s.w_tail.length = s.num ∧
  s.V_T.length = s.num ∧ s.counter.length = s.num ∧ s.dw_dt.length = s.num

instance (s : aEIF) : Decidable (wfS s) := by unfold wfS; infer_instance

/-- Input shapes under which NumPy keeps the state vectors at length `num`:
a scalar, a vector of matching length, or a broadcastable length-1 vector. -/
def inOK (inp : Input) (s : aEIF) : Prop :=
  match inp with
  | .scalar _ => True
  | .vec xs => xs.length = s.num ∨ xs.length = 1

instance (inp : Input) (s : aEIF) : Decidable (inOK inp s) := by
  unfold inOK; cases inp <;> infer_instance

/-- Modelled from the spec: construction goes through
`base_Mod.Neurons.__init__`, which is not under `src/`; per the spec it
fails with `InvalidConfiguration` if `N < 1` or `dt <= 0`, and otherwise
allocates the initial state of `aEIF._params` / `aEIF._vars` (those two
are from the source: `mem = E_L·ones`, `w = 0`, `w_tail = 0`,
`V_T = -50.4·ones`, `counter = 0`, and the documented constants). -/
def create (N : ℤ) (dt : ℚ) : Except String aEIF :=
  if N < 1 ∨ dt ≤ 0 then .error "InvalidConfiguration"
  else .ok
    { num := N.toNat
      C := 281
      g_L := 30
      E_L := -70.6
      VT_rest := -50.4
      Delta_T := 2
      tau_w := 144
      a := 4
      b := 0.0805
      w_jump := 400
      tau_wtail := 40
      tau_VT := 50
      VT_jump := 20
      th := 20
      t := 0
      Iex := 0
      t_spike := 2
      dt := dt
      mem := List.replicate N.toNat (-70.6)
      w := List.replicate N.toNat 0
      w_tail := List.replicate N.toNat 0
      V_T := List.replicate N.toNat (-50.4)
      counter := List.replicate N.toNat 0
      dw_dt := List.replicate N.toNat 0 }

/-! ### Per-neuron reading of the Euler update -/

/-- Effective current seen by neuron `i` (a length-1 vector broadcasts). -/
def iEff (inp : Input) (s : aEIF) (i : ℕ) : ℚ :=
  match inp with
  | .scalar v => v + s.Iex
  | .vec xs => (if xs.length = 1 then xs.headD 0 else xs.getD i 0) + s.Iex

/-- Value of `dmem_dt` at neuron `i`, from the pre-step state. -/
def dmemF (eF : ℚ → ℚ) (s : aEIF) (Iv : ℚ) (i : ℕ) : ℚ :=
  1 / s.C * (-s.g_L * (s.mem.getD i 0 - s.E_L) +
    s.g_L * s.Delta_T * eF ((s.mem.getD i 0 - s.V_T.getD i 0) / s.Delta_T) -
    s.w.getD i 0 + s.w_tail.getD i 0 + Iv)

/-- Value of `dw_dt` at neuron `i`, from the pre-step state. -/
def dwDtF (s : aEIF) (i : ℕ) : ℚ :=
  1 / s.tau_w * (s.a * (s.mem.getD i 0 - s.E_L) - s.w.getD i 0)

/-- Membrane potential of neuron `i` after the Euler update. -/
def memEulerF (eF : ℚ → ℚ) (s : aEIF) (Iv : ℚ) (i : ℕ) : ℚ :=
  s.mem.getD i 0 + dmemF eF s Iv i * s.dt

/-- Adaptation current of neuron `i` after the Euler update. -/
def wEulerF (s : aEIF) (i : ℕ) : ℚ :=
  s.w.getD i 0 + dwDtF s i * s.dt

/-- Tail current of neuron `i` after the Euler update. -/
def wtEulerF (s : aEIF) (i : ℕ) : ℚ :=
  s.w_tail.getD i 0 - s.w_tail.getD i 0 * s.dt / s.tau_wtail

/-- Adaptive threshold of neuron `i` after the Euler update. -/
def vTEulerF (s : aEIF) (i : ℕ) : ℚ :=
  s.VT_rest * s.dt / s.tau_VT + (1 - s.dt / s.tau_VT) * s.V_T.getD i 0

/-- The state `updateVar` produces on a well-shaped call, written neuron
by neuron. -/
def eulerState (eF : ℚ → ℚ) (inp : Input) (s : aEIF) : aEIF :=
  { s with
    mem := (List.range s.num).map (fun i => memEulerF eF s (iEff inp s i) i)
    w := (List.range s.num).map (fun i => wEulerF s i)
    w_tail := (List.range s.num).map (fun i => wtEulerF s i)
    V_T := (List.range s.num).map (fun i => vTEulerF s i)
    dw_dt := (List.range s.num).map (fun i => dwDtF s i) }
/-! ### Per-neuron reading of `spikes_eval` -/

/-- Counter after the onset assignment, given post-Euler membrane `m` and
pre-call counter `c` of one neuron. -/
def cnt1 (s : aEIF) (m : ℚ) (c : ℤ) : ℤ :=
  if s.th < m ∧ c = 0 then 1 else c

/-- The active-mask condition of one neuron (on the onset-updated counter). -/
def actP (s : aEIF) (m : ℚ) (c : ℤ) : Prop :=
  s.dt * (cnt1 s m c : ℚ) < s.t_spike ∧ 0 < cnt1 s m c

instance (s : aEIF) (m : ℚ) (c : ℤ) : Decidable (actP s m c) := by
  unfold actP; infer_instance

/-- Counter after the active increment. -/
def cnt2 (s : aEIF) (m : ℚ) (c : ℤ) : ℤ :=
  if actP s m c then cnt1 s m c + 1 else cnt1 s m c

/-- The end-mask condition of one neuron (on the incremented counter). -/
def endP (s : aEIF) (m : ℚ) (c : ℤ) : Prop :=
  s.t_spike ≤ s.dt * (cnt2 s m c : ℚ)

instance (s : aEIF) (m : ℚ) (c : ℤ) : Decidable (endP s m c) := by
  unfold endP; infer_instance

/-- Counter of one neuron when the call returns. -/
def cnt3 (s : aEIF) (m : ℚ) (c : ℤ) : ℤ :=
  if endP s m c then 0 else cnt2 s m c

/-- Membrane potential of one neuron when the call returns. -/
def memCellVal (s : aEIF) (m : ℚ) (c : ℤ) : ℚ :=
  let m1 := if s.th < m ∧ c = 0 then 24.4 else m
  let m2 := if actP s m c then
      32.862 - 8.462 * ((|pyRound (conut s / 2) - cnt1 s m c| : ℤ) : ℚ) / conut s
    else m1
  if endP s m c then s.E_L + 15 + 6.0984 else m2

/-- Adaptation current of one neuron when the call returns, given its
post-Euler value `w` and the stored derivative `dw`. -/
def wCellVal (s : aEIF) (m : ℚ) (c : ℤ) (w dw : ℚ) : ℚ :=
  let w1 := if actP s m c then w - dw * s.dt else w
  if endP s m c then w1 + s.b else w1

/-- Tail current of one neuron when the call returns. -/
def wtCellVal (s : aEIF) (m : ℚ) (c : ℤ) (z : ℚ) : ℚ :=
  if endP s m c then s.w_jump else z

/-- Adaptive threshold of one neuron when the call returns. -/
def vTCellVal (s : aEIF) (m : ℚ) (c : ℤ) (v : ℚ) : ℚ :=
  if endP s m c then s.VT_jump + s.VT_rest else v

/-- The state a well-shaped `step` call returns. -/
def postOf (eF : ℚ → ℚ) (inp : Input) (s : aEIF) : aEIF :=
  let s2 := spikes_eval (eulerState eF inp s)
  { s2 with t := s2.t + s2.dt }
/-- Post-Euler membrane potential of neuron `i` in a `step` call. -/
def memE (eF : ℚ → ℚ) (inp : Input) (s : aEIF) (i : ℕ) : ℚ :=
  memEulerF eF s (iEff inp s i) i

/-- Neuron `i` matches the onset mask in a `step` call on `s`. -/
def onsetCond (eF : ℚ → ℚ) (inp : Input) (s : aEIF) (i : ℕ) : Prop :=
  s.th < memE eF inp s i ∧ s.counter.getD i 0 = 0

instance (eF : ℚ → ℚ) (inp : Input) (s : aEIF) (i : ℕ) :
    Decidable (onsetCond eF inp s i) := by unfold onsetCond; infer_instance

/-- Neuron `i` matches the active mask in a `step` call on `s`. -/
def activeCond (eF : ℚ → ℚ) (inp : Input) (s : aEIF) (i : ℕ) : Prop :=
  actP s (memE eF inp s i) (s.counter.getD i 0)

instance (eF : ℚ → ℚ) (inp : Input) (s : aEIF) (i : ℕ) :
    Decidable (activeCond eF inp s i) := by unfold activeCond; infer_instance

/-- Neuron `i` matches the end mask in a `step` call on `s`. -/
def endCond (eF : ℚ → ℚ) (inp : Input) (s : aEIF) (i : ℕ) : Prop :=
  endP s (memE eF inp s i) (s.counter.getD i 0)

instance (eF : ℚ → ℚ) (inp : Input) (s : aEIF) (i : ℕ) :
    Decidable (endCond eF inp s i) := by unfold endCond; infer_instance

/-- Adaptation current of neuron `i` at the moment the end mask is applied
(post-Euler, minus the active-mask subtraction if that mask also matched). -/
def wBeforeEnd (eF : ℚ → ℚ) (inp : Input) (s : aEIF) (i : ℕ) : ℚ :=
  if activeCond eF inp s i then wEulerF s i - dwDtF s i * s.dt else wEulerF s i

/-- A concrete exponential (identically zero) used for closed evaluations;
the theorems hold for every `eF`. -/
def eF0 : ℚ → ℚ := fun _ => 0

/-- A state with the default configuration of `aEIF._params`
(`dt = 0.25`, the constructor default) and given per-neuron vectors. -/
def mkDefault (n : ℕ) (mem w wt vT : List ℚ) (c : List ℤ) (dw : List ℚ) : aEIF :=
  { num := n, C := 281, g_L := 30, E_L := -70.6, VT_rest := -50.4, Delta_T := 2,
    tau_w := 144, a := 4, b := 0.0805, w_jump := 400, tau_wtail := 40, tau_VT := 50,
    VT_jump := 20, th := 20, t := 0, Iex := 0, t_spike := 2, dt := 0.25,
    mem := mem, w := w, w_tail := wt, V_T := vT, counter := c, dw_dt := dw }

/-- One resting neuron driven far above threshold: the next step is an onset. -/
def sOnset : aEIF := mkDefault 1 [1000] [0] [0] [-50.4] [0] [0]

/-- Two resting neurons at the initial state. -/
def sTwo : aEIF :=
  mkDefault 2 [-70.6, -70.6] [0, 0] [0, 0] [-50.4, -50.4] [0, 0] [0, 0]

/-- One neuron in the last active tick of its spike window (`counter = 7`). -/
def sAct7 : aEIF := mkDefault 1 [-49] [1] [0] [-50.4] [7] [0]

/-- One neuron exactly at the end condition (`counter = 8`, `dt*8 = t_spike`). -/
def sEnd8 : aEIF := mkDefault 1 [-60] [0] [0] [-50.4] [8] [0]

/-- One neuron in mid spike window (`counter = 2`). -/
def sAct2 : aEIF := mkDefault 1 [-60] [1] [0] [-50.4] [2] [0]

/-- One resting neuron whose membrane already exceeds threshold. -/
def sHot : aEIF := mkDefault 1 [100] [0] [0] [-50.4] [0] [0]

/-- The trajectory of repeated `step` calls with scalar inputs `ins`;
a failing step (impossible on well-formed states) would repeat the state. -/
def stepsFrom (eF : ℚ → ℚ) (ins : ℕ → ℚ) (s : aEIF) : ℕ → aEIF
  | 0 => s
  | j + 1 =>
      (step eF (Input.scalar (ins j)) (stepsFrom eF ins s j)).getD
        (stepsFrom eF ins s j)

theorem getD_eq_dite {α : Type} (l : List α) (d : α) (i : ℕ) :
    l.getD i d = if h : i < l.length then l[i] else d := by
  split
  case isTrue h => simp [List.getD_eq_getElem?_getD, List.getElem?_eq_getElem h]
  case isFalse h =>
    simp [List.getD_eq_getElem?_getD, List.getElem?_eq_none (le_of_not_lt h)]

theorem bop_eq_zipWith (f : ℚ → ℚ → ℚ) (xs ys : List ℚ)
    (h : xs.length = ys.length) : bop f xs ys = some (List.zipWith f xs ys) := by
  simp [bop, h]

theorem bop_eq_map_right (f : ℚ → ℚ → ℚ) (xs ys : List ℚ)
    (hx : xs.length ≠ 1) (hy : ys.length = 1) :
    bop f xs ys = some (xs.map (fun x => f x (ys.headD 0))) := by
  have hne : xs.length ≠ ys.length := by omega
  simp [bop, hne, hx, hy]

theorem iEff_vec_full (xs : List ℚ) (s : aEIF) (i : ℕ)
    (hx : xs.length = s.num) (hi : i < s.num) :
    iEff (.vec xs) s i = xs.getD i 0 + s.Iex := by
  by_cases h : xs.length = 1
  · obtain ⟨v, rfl⟩ := List.length_eq_one.mp h
    have hi0 : i = 0 := by omega
    subst hi0
    simp [iEff]
  · simp [iEff, h]

theorem dwDt_ok (s : aEIF) (hwf : wfS s) :
    dwDt s = some ((List.range s.num).map (fun i => dwDtF s i)) := by
  obtain ⟨hm, hw, -, -, -, -⟩ := hwf
  rw [dwDt, bop_eq_zipWith _ _ _ (by simp [hm, hw])]
  simp only [Option.some_bind]
  congr 1
  apply List.ext_getElem (by simp [hm, hw])
  intro i h1 h2
  simp only [List.getElem_map, List.getElem_zipWith, List.getElem_range]
  have hi : i < s.num := by simpa [hm, hw] using h2
  simp [dwDtF, getD_eq_dite, hm, hw, hi]

theorem dmemDt_ok (eF : ℚ → ℚ) (inp : Input) (s : aEIF) (hwf : wfS s)
    (hin : inOK inp s) :
    dmemDt eF (effI inp s) s =
      some ((List.range s.num).map (fun i => dmemF eF s (iEff inp s i) i)) := by
  obtain ⟨hm, hw, hwt, hvt, -, -⟩ := hwf
  rw [dmemDt, bop_eq_zipWith _ _ _ (by simp [hm, hvt])]
  simp only [Option.some_bind]
  rw [bop_eq_zipWith _ _ _ (by simp [hm, hvt])]
  simp only [Option.some_bind]
  rw [bop_eq_zipWith _ _ _ (by simp [hm, hvt, hw])]
  simp only [Option.some_bind]
  rw [bop_eq_zipWith _ _ _ (by simp [hm, hvt, hw, hwt])]
  simp only [Option.some_bind]
  cases inp with
  | scalar v =>
    rw [show effI (.scalar v) s = .scalar (v + s.Iex) from rfl]
    simp only [addI, Option.some_bind]
    congr 1
    apply List.ext_getElem (by simp [hm, hvt, hw, hwt])
    intro i h1 h2
    have hi : i < s.num := by
      simpa [hm, hvt, hw, hwt] using h1
    simp only [List.getElem_map, List.getElem_zipWith, List.getElem_range]
    simp [dmemF, iEff, getD_eq_dite, hm, hvt, hw, hwt, hi]
  | vec xs =>
    rw [show effI (.vec xs) s = .vec (xs.map (· + s.Iex)) from rfl]
    rcases hin with hx | hx
    · rw [show addI (Input.vec (xs.map (· + s.Iex))) _ = bop (· + ·) _ (xs.map (· + s.Iex)) from rfl,
        bop_eq_zipWith _ _ _ (by simp [hm, hvt, hw, hwt, hx])]
      simp only [Option.some_bind]
      congr 1
      apply List.ext_getElem (by simp [hm, hvt, hw, hwt, hx])
      intro i h1 h2
      have hi : i < s.num := by
        simpa [hm, hvt, hw, hwt, hx] using h1
      simp only [List.getElem_map, List.getElem_zipWith, List.getElem_range]
      rw [iEff_vec_full xs s i hx hi]
      simp [dmemF, getD_eq_dite, hm, hvt, hw, hwt, hx, hi]
    · obtain ⟨v, rfl⟩ := List.length_eq_one.mp hx
      by_cases hone : s.num = 1
      · rw [show addI (Input.vec ([v].map (· + s.Iex))) _ = bop (· + ·) _ ([v].map (· + s.Iex)) from rfl,
          bop_eq_zipWith _ _ _ (by simp [hm, hvt, hw, hwt, hone])]
        simp only [Option.some_bind]
        congr 1
        apply List.ext_getElem (by simp [hm, hvt, hw, hwt, hone])
        intro i h1 h2
        have hi : i < s.num := by
          have : i < 1 := by simpa [hm, hvt, hw, hwt, hone] using h1
          omega
        have hi0 : i = 0 := by
          have : i < 1 := by simpa [hm, hvt, hw, hwt, hone] using h1
          omega
        subst hi0
        simp only [List.getElem_map, List.getElem_zipWith, List.getElem_range]
        simp [dmemF, iEff, getD_eq_dite, hm, hvt, hw, hwt, hi]
      · rw [show addI (Input.vec ([v].map (· + s.Iex))) _ = bop (· + ·) _ ([v].map (· + s.Iex)) from rfl,
          bop_eq_map_right _ _ _ (by simp [hm, hvt, hw, hwt, hone]) (by simp)]
        simp only [Option.some_bind]
        congr 1
        apply List.ext_getElem (by simp [hm, hvt, hw, hwt])
        intro i h1 h2
        have hi : i < s.num := by
          simpa [hm, hvt, hw, hwt] using h1
        simp only [List.getElem_map, List.getElem_zipWith, List.getElem_range]
        simp [dmemF, iEff, getD_eq_dite, hm, hvt, hw, hwt, hi]

theorem updateVar_ok (eF : ℚ → ℚ) (inp : Input) (s : aEIF) (hwf : wfS s)
    (hin : inOK inp s) :
    updateVar eF (effI inp s) s = some (eulerState eF inp s) := by
  obtain ⟨hm, hw, hwt, hvt, hc, hd⟩ := hwf
  rw [updateVar, dmemDt_ok eF inp s ⟨hm, hw, hwt, hvt, hc, hd⟩ hin,
    dwDt_ok s ⟨hm, hw, hwt, hvt, hc, hd⟩]
  simp only [Option.some_bind]
  rw [bop_eq_zipWith _ _ _ (by simp [hm])]
  simp only [Option.some_bind]
  rw [bop_eq_zipWith _ _ _ (by simp [hw])]
  simp only [Option.some_bind]
  rw [eulerState]
  refine congrArg some ?_
  apply aEIF.ext <;> try rfl
  · apply List.ext_getElem (by simp [hm])
    intro i h1 h2
    have hi : i < s.num := by simpa [hm] using h1
    simp only [List.getElem_map, List.getElem_zipWith, List.getElem_range]
    simp [memEulerF, getD_eq_dite, hm, hi]
  · apply List.ext_getElem (by simp [hw])
    intro i h1 h2
    have hi : i < s.num := by simpa [hw] using h1
    simp only [List.getElem_map, List.getElem_zipWith, List.getElem_range]
    simp [wEulerF, getD_eq_dite, hw, hi]
  · apply List.ext_getElem (by simp [hwt])
    intro i h1 h2
    have hi : i < s.num := by simpa [hwt] using h1
    simp only [List.getElem_map, List.getElem_range]
    simp [wtEulerF, getD_eq_dite, hwt, hi]
  · apply List.ext_getElem (by simp [hvt])
    intro i h1 h2
    have hi : i < s.num := by simpa [hvt] using h1
    simp only [List.getElem_map, List.getElem_range]
    simp [vTEulerF, getD_eq_dite, hvt, hi]
theorem counter1L_getD (s : aEIF) (i : ℕ)
    (hm : s.mem.length = s.num) (hc : s.counter.length = s.num) (hi : i < s.num) :
    (counter1L s).getD i 0 = cnt1 s (s.mem.getD i 0) (s.counter.getD i 0) := by
  have l1 : (counter1L s).length = s.num := by
    simp [counter1L, onsetMask, hm, hc]
  simp only [getD_eq_dite, l1, hm, hc, hi, dif_pos]
  simp [counter1L, onsetMask, cnt1, List.getElem_zipWith]

theorem counter2L_getD (s : aEIF) (i : ℕ)
    (hm : s.mem.length = s.num) (hc : s.counter.length = s.num) (hi : i < s.num) :
    (counter2L s).getD i 0 = cnt2 s (s.mem.getD i 0) (s.counter.getD i 0) := by
  have l1 : (counter1L s).length = s.num := by
    simp [counter1L, onsetMask, hm, hc]
  have l2 : (counter2L s).length = s.num := by simp [counter2L, l1]
  simp only [getD_eq_dite, l1, l2, hi, dif_pos]
  have h1 := counter1L_getD s i hm hc hi
  simp only [getD_eq_dite, l1, hi, dif_pos] at h1
  simp [counter2L, cnt2, actP, h1]

theorem counter3L_getD (s : aEIF) (i : ℕ)
    (hm : s.mem.length = s.num) (hc : s.counter.length = s.num) (hi : i < s.num) :
    (counter3L s).getD i 0 = cnt3 s (s.mem.getD i 0) (s.counter.getD i 0) := by
  have l1 : (counter1L s).length = s.num := by
    simp [counter1L, onsetMask, hm, hc]
  have l2 : (counter2L s).length = s.num := by simp [counter2L, l1]
  have l3 : (counter3L s).length = s.num := by simp [counter3L, l2]
  simp only [getD_eq_dite, l2, l3, hi, dif_pos]
  have h2 := counter2L_getD s i hm hc hi
  simp only [getD_eq_dite, l2, hi, dif_pos] at h2
  simp [counter3L, cnt3, endP, h2]

theorem mem3L_getD (s : aEIF) (i : ℕ)
    (hm : s.mem.length = s.num) (hc : s.counter.length = s.num) (hi : i < s.num) :
    (mem3L s).getD i 0 = memCellVal s (s.mem.getD i 0) (s.counter.getD i 0) := by
  have l1 : (counter1L s).length = s.num := by
    simp [counter1L, onsetMask, hm, hc]
  have lm1 : (mem1L s).length = s.num := by simp [mem1L, onsetMask, hm, hc]
  have lm2 : (mem2L s).length = s.num := by simp [mem2L, l1, lm1]
  have l2 : (counter2L s).length = s.num := by simp [counter2L, l1]
  have lm3 : (mem3L s).length = s.num := by simp [mem3L, l2, lm2]
  simp only [getD_eq_dite, hm, hc, lm3, hi, dif_pos]
  have h1 := counter1L_getD s i hm hc hi
  simp only [getD_eq_dite, l1, hm, hc, hi, dif_pos] at h1
  have h2 := counter2L_getD s i hm hc hi
  simp only [getD_eq_dite, l2, hm, hc, hi, dif_pos] at h2
  simp only [mem3L, mem2L, mem1L, onsetMask, List.getElem_zipWith, List.getElem_map,
    h1, h2]
  simp [memCellVal, actP, endP, cnt1, cnt2, h1]

theorem w2L_getD (s : aEIF) (i : ℕ)
    (hm : s.mem.length = s.num) (hc : s.counter.length = s.num)
    (hw : s.w.length = s.num) (hd : s.dw_dt.length = s.num) (hi : i < s.num) :
    (w2L s).getD i 0 =
      wCellVal s (s.mem.getD i 0) (s.counter.getD i 0) (s.w.getD i 0) (s.dw_dt.getD i 0) := by
  have l1 : (counter1L s).length = s.num := by
    simp [counter1L, onsetMask, hm, hc]
  have l2 : (counter2L s).length = s.num := by simp [counter2L, l1]
  have lw1 : (w1L s).length = s.num := by simp [w1L, l1, hd, hw]
  have lw2 : (w2L s).length = s.num := by simp [w2L, l2, lw1]
  simp only [getD_eq_dite, hm, hc, hw, hd, lw2, hi, dif_pos]
  have h1 := counter1L_getD s i hm hc hi
  simp only [getD_eq_dite, l1, hm, hc, hi, dif_pos] at h1
  have h2 := counter2L_getD s i hm hc hi
  simp only [getD_eq_dite, l2, hm, hc, hi, dif_pos] at h2
  simp only [w2L, w1L, List.getElem_zipWith, List.getElem_zip, h1, h2]
  simp [wCellVal, actP, endP, cnt2, h1]

theorem wt1L_getD (s : aEIF) (i : ℕ)
    (hm : s.mem.length = s.num) (hc : s.counter.length = s.num)
    (hwt : s.w_tail.length = s.num) (hi : i < s.num) :
    (wt1L s).getD i 0 =
      wtCellVal s (s.mem.getD i 0) (s.counter.getD i 0) (s.w_tail.getD i 0) := by
  have l1 : (counter1L s).length = s.num := by
    simp [counter1L, onsetMask, hm, hc]
  have l2 : (counter2L s).length = s.num := by simp [counter2L, l1]
  have lwt : (wt1L s).length = s.num := by simp [wt1L, l2, hwt]
  simp only [getD_eq_dite, hm, hc, hwt, lwt, hi, dif_pos]
  have h2 := counter2L_getD s i hm hc hi
  simp only [getD_eq_dite, l2, hm, hc, hi, dif_pos] at h2
  simp only [wt1L, List.getElem_zipWith, h2]
  simp [wtCellVal, endP]

theorem vT1L_getD (s : aEIF) (i : ℕ)
    (hm : s.mem.length = s.num) (hc : s.counter.length = s.num)
    (hvt : s.V_T.length = s.num) (hi : i < s.num) :
    (vT1L s).getD i 0 =
      vTCellVal s (s.mem.getD i 0) (s.counter.getD i 0) (s.V_T.getD i 0) := by
  have l1 : (counter1L s).length = s.num := by
    simp [counter1L, onsetMask, hm, hc]
  have l2 : (counter2L s).length = s.num := by simp [counter2L, l1]
  have lvt : (vT1L s).length = s.num := by simp [vT1L, l2, hvt]
  simp only [getD_eq_dite, hm, hc, hvt, lvt, hi, dif_pos]
  have h2 := counter2L_getD s i hm hc hi
  simp only [getD_eq_dite, l2, hm, hc, hi, dif_pos] at h2
  simp only [vT1L, List.getElem_zipWith, h2]
  simp [vTCellVal, endP]

theorem step_eq (eF : ℚ → ℚ) (inp : Input) (s : aEIF) (hwf : wfS s)
    (hin : inOK inp s) : step eF inp s = some (postOf eF inp s) := by
  rw [step, updateVar_ok eF inp s hwf hin]
  rfl


theorem eulerState_mem_getD (eF : ℚ → ℚ) (inp : Input) (s : aEIF) (i : ℕ)
    (hi : i < s.num) : (eulerState eF inp s).mem.getD i 0 = memE eF inp s i := by
  have l : ((List.range s.num).map
      (fun i => memEulerF eF s (iEff inp s i) i)).length = s.num := by simp
  simp only [eulerState, getD_eq_dite]
  rw [dif_pos (by simpa [l] using hi)]
  simp [memE]

theorem eulerState_w_getD (s : aEIF) (eF : ℚ → ℚ) (inp : Input) (i : ℕ)
    (hi : i < s.num) : (eulerState eF inp s).w.getD i 0 = wEulerF s i := by
  have l : ((List.range s.num).map (fun i => wEulerF s i)).length = s.num := by simp
  simp only [eulerState, getD_eq_dite]
  rw [dif_pos (by simpa [l] using hi)]
  simp

theorem eulerState_wt_getD (s : aEIF) (eF : ℚ → ℚ) (inp : Input) (i : ℕ)
    (hi : i < s.num) : (eulerState eF inp s).w_tail.getD i 0 = wtEulerF s i := by
  have l : ((List.range s.num).map (fun i => wtEulerF s i)).length = s.num := by simp
  simp only [eulerState, getD_eq_dite]
  rw [dif_pos (by simpa [l] using hi)]
  simp

theorem eulerState_vT_getD (s : aEIF) (eF : ℚ → ℚ) (inp : Input) (i : ℕ)
    (hi : i < s.num) : (eulerState eF inp s).V_T.getD i 0 = vTEulerF s i := by
  have l : ((List.range s.num).map (fun i => vTEulerF s i)).length = s.num := by simp
  simp only [eulerState, getD_eq_dite]
  rw [dif_pos (by simpa [l] using hi)]
  simp

theorem eulerState_dw_getD (s : aEIF) (eF : ℚ → ℚ) (inp : Input) (i : ℕ)
    (hi : i < s.num) : (eulerState eF inp s).dw_dt.getD i 0 = dwDtF s i := by
  have l : ((List.range s.num).map (fun i => dwDtF s i)).length = s.num := by simp
  simp only [eulerState, getD_eq_dite]
  rw [dif_pos (by simpa [l] using hi)]
  simp

theorem wfS_eulerState (eF : ℚ → ℚ) (inp : Input) (s : aEIF) (hwf : wfS s) :
    wfS (eulerState eF inp s) := by
  obtain ⟨-, -, -, -, hc, -⟩ := hwf
  refine ⟨by simp [eulerState], by simp [eulerState], by simp [eulerState],
    by simp [eulerState], ?_, by simp [eulerState]⟩
  simpa [eulerState] using hc

theorem wfS_spikes_eval (s : aEIF) (hwf : wfS s) : wfS (spikes_eval s) := by
  obtain ⟨hm, hw, hwt, hvt, hc, hd⟩ := hwf
  refine ⟨?_, ?_, ?_, ?_, ?_, ?_⟩ <;>
    simp [spikes_eval, mem3L, mem2L, mem1L, w2L, w1L, wt1L, vT1L, counter3L,
      counter2L, counter1L, onsetMask, hm, hw, hwt, hvt, hc, hd]

theorem wfS_postOf (eF : ℚ → ℚ) (inp : Input) (s : aEIF) (hwf : wfS s) :
    wfS (postOf eF inp s) :=
  wfS_spikes_eval _ (wfS_eulerState eF inp s hwf)

theorem postOf_counter_getD (eF : ℚ → ℚ) (inp : Input) (s : aEIF) (i : ℕ)
    (hwf : wfS s) (hi : i < s.num) :
    (postOf eF inp s).counter.getD i 0 =
      cnt3 s (memE eF inp s i) (s.counter.getD i 0) := by
  obtain ⟨hem, hew, hewt, hevt, hec, hed⟩ := wfS_eulerState eF inp s hwf
  have h := counter3L_getD (eulerState eF inp s) i hem hec
    (by simpa [eulerState] using hi)
  rw [show (postOf eF inp s).counter = counter3L (eulerState eF inp s) from rfl, h,
    eulerState_mem_getD eF inp s i hi,
    show (eulerState eF inp s).counter = s.counter from rfl]
  rfl

theorem postOf_mem_getD (eF : ℚ → ℚ) (inp : Input) (s : aEIF) (i : ℕ)
    (hwf : wfS s) (hi : i < s.num) :
    (postOf eF inp s).mem.getD i 0 =
      memCellVal s (memE eF inp s i) (s.counter.getD i 0) := by
  obtain ⟨hem, hew, hewt, hevt, hec, hed⟩ := wfS_eulerState eF inp s hwf
  have h := mem3L_getD (eulerState eF inp s) i hem hec
    (by simpa [eulerState] using hi)
  rw [show (postOf eF inp s).mem = mem3L (eulerState eF inp s) from rfl, h,
    eulerState_mem_getD eF inp s i hi,
    show (eulerState eF inp s).counter = s.counter from rfl]
  rfl

theorem postOf_w_getD (eF : ℚ → ℚ) (inp : Input) (s : aEIF) (i : ℕ)
    (hwf : wfS s) (hi : i < s.num) :
    (postOf eF inp s).w.getD i 0 =
      wCellVal s (memE eF inp s i) (s.counter.getD i 0) (wEulerF s i) (dwDtF s i) := by
  obtain ⟨hem, hew, hewt, hevt, hec, hed⟩ := wfS_eulerState eF inp s hwf
  have h := w2L_getD (eulerState eF inp s) i hem hec hew hed
    (by simpa [eulerState] using hi)
  rw [show (postOf eF inp s).w = w2L (eulerState eF inp s) from rfl, h,
    eulerState_mem_getD eF inp s i hi, eulerState_w_getD s eF inp i hi,
    eulerState_dw_getD s eF inp i hi,
    show (eulerState eF inp s).counter = s.counter from rfl]
  rfl

theorem postOf_wt_getD (eF : ℚ → ℚ) (inp : Input) (s : aEIF) (i : ℕ)
    (hwf : wfS s) (hi : i < s.num) :
    (postOf eF inp s).w_tail.getD i 0 =
      wtCellVal s (memE eF inp s i) (s.counter.getD i 0) (wtEulerF s i) := by
  obtain ⟨hem, hew, hewt, hevt, hec, hed⟩ := wfS_eulerState eF inp s hwf
  have h := wt1L_getD (eulerState eF inp s) i hem hec hewt
    (by simpa [eulerState] using hi)
  rw [show (postOf eF inp s).w_tail = wt1L (eulerState eF inp s) from rfl, h,
    eulerState_mem_getD eF inp s i hi, eulerState_wt_getD s eF inp i hi,
    show (eulerState eF inp s).counter = s.counter from rfl]
  rfl

theorem postOf_vT_getD (eF : ℚ → ℚ) (inp : Input) (s : aEIF) (i : ℕ)
    (hwf : wfS s) (hi : i < s.num) :
    (postOf eF inp s).V_T.getD i 0 =
      vTCellVal s (memE eF inp s i) (s.counter.getD i 0) (vTEulerF s i) := by
  obtain ⟨hem, hew, hewt, hevt, hec, hed⟩ := wfS_eulerState eF inp s hwf
  have h := vT1L_getD (eulerState eF inp s) i hem hec hevt
    (by simpa [eulerState] using hi)
  rw [show (postOf eF inp s).V_T = vT1L (eulerState eF inp s) from rfl, h,
    eulerState_mem_getD eF inp s i hi, eulerState_vT_getD s eF inp i hi,
    show (eulerState eF inp s).counter = s.counter from rfl]
  rfl

theorem postOf_t (eF : ℚ → ℚ) (inp : Input) (s : aEIF) :
    (postOf eF inp s).t = s.t + s.dt := rfl

theorem postOf_dt (eF : ℚ → ℚ) (inp : Input) (s : aEIF) :
    (postOf eF inp s).dt = s.dt := rfl

theorem postOf_t_spike (eF : ℚ → ℚ) (inp : Input) (s : aEIF) :
    (postOf eF inp s).t_spike = s.t_spike := rfl

theorem postOf_num (eF : ℚ → ℚ) (inp : Input) (s : aEIF) :
    (postOf eF inp s).num = s.num := rfl

/-! ### Integer characterisation of the counter dynamics -/

theorem rat_lt_iff_lt_ceil (s : aEIF) (hdt : 0 < s.dt) (d : ℤ) :
    s.dt * (d : ℚ) < s.t_spike ↔ d < ⌈s.t_spike / s.dt⌉ := by
  rw [mul_comm, ← lt_div_iff hdt, Int.lt_ceil]

theorem rat_le_iff_ceil_le (s : aEIF) (hdt : 0 < s.dt) (d : ℤ) :
    s.t_spike ≤ s.dt * (d : ℚ) ↔ ⌈s.t_spike / s.dt⌉ ≤ d := by
  rw [mul_comm, ← div_le_iff hdt, Int.ceil_le]

theorem cnt3_pos (s : aEIF) (m : ℚ) (c : ℤ) (hdt : 0 < s.dt) (hc : 0 < c) :
    cnt3 s m c =
      if c < ⌈s.t_spike / s.dt⌉ then
        (if ⌈s.t_spike / s.dt⌉ ≤ c + 1 then 0 else c + 1)
      else 0 := by
  have hc1 : cnt1 s m c = c := by
    unfold cnt1
    rw [if_neg]
    rintro ⟨-, h⟩
    omega
  unfold cnt3 endP cnt2 actP
  simp only [hc1]
  simp only [rat_lt_iff_lt_ceil s hdt, rat_le_iff_ceil_le s hdt]
  split_ifs <;> omega

theorem cnt3_onset (s : aEIF) (m : ℚ) (hdt : 0 < s.dt) (hon : s.th < m) :
    cnt3 s m 0 = if (2 : ℤ) < ⌈s.t_spike / s.dt⌉ then 2 else 0 := by
  have hc1 : cnt1 s m 0 = 1 := by unfold cnt1; rw [if_pos ⟨hon, rfl⟩]
  unfold cnt3 endP cnt2 actP
  simp only [hc1]
  simp only [rat_lt_iff_lt_ceil s hdt, rat_le_iff_ceil_le s hdt]
  split_ifs <;> omega

/-! ### The claims -/

/-- Claim C5: construction fails with `InvalidConfiguration` whenever
`N < 1` or `dt ≤ 0`. -/
theorem C5_create_invalid (N : ℤ) (dt : ℚ) (h : N < 1 ∨ dt ≤ 0) :
    create N dt = .error "InvalidConfiguration" := by
  rw [create, if_pos h]

theorem C5_create_invalid_witness :
    ((0 : ℤ) < 1 ∨ (1 : ℚ) ≤ 0) ∧ create 0 1 = .error "InvalidConfiguration" :=
  ⟨Or.inl (by decide), C5_create_invalid 0 1 (Or.inl (by decide))⟩

theorem onsetMask_getD_of_lt (s : aEIF) (i : ℕ)
    (h1 : i < s.mem.length) (h2 : i < s.counter.length) :
    (onsetMask s).getD i false =
      decide (s.th < s.mem.getD i 0 ∧ s.counter.getD i 0 = 0) := by
  have hl : i < (onsetMask s).length := by
    simp only [onsetMask, List.length_zipWith]
    omega
  rw [getD_eq_dite, dif_pos hl, getD_eq_dite, dif_pos h1, getD_eq_dite, dif_pos h2]
  simp [onsetMask]

theorem activeMask_getD_of_lt (s : aEIF) (i : ℕ) (h : i < (counter1L s).length) :
    (activeMask s).getD i false =
      decide (s.dt * (Int.cast ((counter1L s).getD i 0) : ℚ) < s.t_spike ∧
        0 < (counter1L s).getD i 0) := by
  have hl : i < (activeMask s).length := by
    simp only [activeMask, List.length_map]
    omega
  rw [getD_eq_dite, dif_pos hl, getD_eq_dite, dif_pos h]
  simp [activeMask]

/-- Claim C10: whenever some neuron matches the active mask and `dt > 0`,
the waveform divisor `conut = t_spike/dt - 1` is strictly positive. -/
theorem C10_conut_pos (s : aEIF) (i : ℕ) (hdt : 0 < s.dt)
    (hact : (activeMask s).getD i false = true) : 0 < conut s := by
  by_cases hlen : i < (counter1L s).length
  · rw [activeMask_getD_of_lt s i hlen] at hact
    obtain ⟨h1, h2⟩ := of_decide_eq_true hact
    set c : ℤ := (counter1L s).getD i 0 with hcdef
    have h3 : (1 : ℚ) ≤ (c : ℚ) := by exact_mod_cast h2
    have h4 : s.dt * 1 ≤ s.dt * (c : ℚ) := mul_le_mul_of_nonneg_left h3 hdt.le
    rw [mul_one] at h4
    rw [conut, sub_pos, lt_div_iff hdt, one_mul]
    linarith
  · rw [getD_eq_dite, dif_neg (by simpa [activeMask] using hlen)] at hact
    exact absurd hact (by simp)

theorem C10_conut_pos_witness :
    (0 < sAct2.dt ∧ (activeMask sAct2).getD 0 false = true) ∧ 0 < conut sAct2 := by
  have h1 : 0 < sAct2.dt := by norm_num [sAct2, mkDefault]
  have h2 : (activeMask sAct2).getD 0 false = true := by
    norm_num [activeMask, counter1L, onsetMask, sAct2, mkDefault, List.zipWith]
  exact ⟨⟨h1, h2⟩, C10_conut_pos sAct2 0 h1 h2⟩

/-- Claim C2 (counterexample): in the step on `sOnset`, neuron 0 matches
both the onset mask and the active mask of the same call, so the three
spike-phase conditions are not mutually exclusive. -/
theorem C2_mutual_exclusion_counterexample :
    (updateVar eF0 (effI (.scalar 0) sOnset) sOnset).map
        (fun u => ((onsetMask u).getD 0 false, (activeMask u).getD 0 false)) =
      some (true, true) := by
  have hwf : wfS sOnset := by decide
  rw [updateVar_ok eF0 (.scalar 0) sOnset hwf trivial, Option.map_some']
  have hu := wfS_eulerState eF0 (.scalar 0) sOnset hwf
  obtain ⟨hum, -, -, -, huc, -⟩ := hu
  have hnum : (eulerState eF0 (.scalar 0) sOnset).num = sOnset.num := rfl
  have hmE : sOnset.th < memE eF0 (.scalar 0) sOnset 0 := by
    norm_num [memE, memEulerF, dmemF, iEff, sOnset, mkDefault, eF0]
  have hon : (onsetMask (eulerState eF0 (.scalar 0) sOnset)).getD 0 false = true := by
    rw [onsetMask_getD_of_lt _ 0 (by rw [hum]; decide) (by rw [huc]; decide)]
    rw [eulerState_mem_getD eF0 (.scalar 0) sOnset 0 (by decide)]
    rw [show (eulerState eF0 (.scalar 0) sOnset).counter = sOnset.counter from rfl]
    rw [decide_eq_true_eq]
    exact ⟨hmE, by decide⟩
  have hc1 : (counter1L (eulerState eF0 (.scalar 0) sOnset)).getD 0 0 = 1 := by
    rw [counter1L_getD _ 0 hum huc (by decide)]
    rw [eulerState_mem_getD eF0 (.scalar 0) sOnset 0 (by decide)]
    rw [show (eulerState eF0 (.scalar 0) sOnset).counter = sOnset.counter from rfl]
    unfold cnt1
    rw [if_pos ⟨hmE, by decide⟩]
  have hact : (activeMask (eulerState eF0 (.scalar 0) sOnset)).getD 0 false = true := by
    rw [activeMask_getD_of_lt _ 0
      (by simp only [counter1L, onsetMask, List.length_zipWith, hum, huc]; decide), hc1]
    rw [decide_eq_true_eq]
    constructor
    · norm_num [eulerState, sOnset, mkDefault]
    · decide
  rw [hon, hact]

/-- Claim C2 (amended): the masks are evaluated sequentially on updated
counters, so a neuron that matches the onset mask also matches the active
mask of the same call precisely when `dt < t_spike`. -/
theorem C2_onset_also_active (s : aEIF) (i : ℕ)
    (hm : s.mem.length = s.num) (hc : s.counter.length = s.num) (hi : i < s.num)
    (hon : (onsetMask s).getD i false = true) :
    ((activeMask s).getD i false = true) ↔ s.dt < s.t_spike := by
  rw [onsetMask_getD_of_lt s i (by omega) (by omega)] at hon
  obtain ⟨h1, h2⟩ := of_decide_eq_true hon
  have l1 : (counter1L s).length = s.num := by simp [counter1L, onsetMask, hm, hc]
  rw [activeMask_getD_of_lt s i (by omega), counter1L_getD s i hm hc hi]
  have hcnt : cnt1 s (s.mem.getD i 0) (s.counter.getD i 0) = 1 := by
    unfold cnt1
    rw [if_pos ⟨h1, h2⟩]
  rw [hcnt]
  simp

theorem C2_onset_also_active_witness :
    (sHot.mem.length = sHot.num ∧ sHot.counter.length = sHot.num ∧ 0 < sHot.num ∧
      (onsetMask sHot).getD 0 false = true) ∧
    (((activeMask sHot).getD 0 false = true) ↔ sHot.dt < sHot.t_spike) := by
  have h4 : (onsetMask sHot).getD 0 false = true := by
    norm_num [onsetMask, sHot, mkDefault, List.zipWith]
  exact ⟨⟨by decide, by decide, by decide, h4⟩,
    C2_onset_also_active sHot 0 (by decide) (by decide) (by decide) h4⟩

/-- Claim C6: a neuron that takes the end branch ends the call with
`mem = E_L + 15 + 6.0984`, `w` increased by `b` over its value just before
the end branch, `w_tail = w_jump`, `V_T = VT_jump + VT_rest`, `counter = 0`. -/
theorem C6_end_reset (eF : ℚ → ℚ) (inp : Input) (s : aEIF) (i : ℕ)
    (hwf : wfS s) (hin : inOK inp s) (hi : i < s.num)
    (hend : endCond eF inp s i) :
    ∃ s2, step eF inp s = some s2 ∧
      s2.mem.getD i 0 = s.E_L + 15 + 6.0984 ∧
      s2.w.getD i 0 = wBeforeEnd eF inp s i + s.b ∧
      s2.w_tail.getD i 0 = s.w_jump ∧
      s2.V_T.getD i 0 = s.VT_jump + s.VT_rest ∧
      s2.counter.getD i 0 = 0 := by
  have hend' : endP s (memE eF inp s i) (s.counter.getD i 0) := hend
  refine ⟨postOf eF inp s, step_eq eF inp s hwf hin, ?_, ?_, ?_, ?_, ?_⟩
  · rw [postOf_mem_getD eF inp s i hwf hi]
    simp only [memCellVal]
    rw [if_pos hend']
  · rw [postOf_w_getD eF inp s i hwf hi]
    simp only [wCellVal]
    rw [if_pos hend']
    rfl
  · rw [postOf_wt_getD eF inp s i hwf hi]
    simp only [wtCellVal]
    rw [if_pos hend']
  · rw [postOf_vT_getD eF inp s i hwf hi]
    simp only [vTCellVal]
    rw [if_pos hend']
  · rw [postOf_counter_getD eF inp s i hwf hi]
    simp only [cnt3]
    rw [if_pos hend']

theorem C6_end_reset_witness :
    (wfS sEnd8 ∧ inOK (.scalar 0) sEnd8 ∧ 0 < sEnd8.num ∧
      endCond eF0 (.scalar 0) sEnd8 0) ∧
    (∃ s2, step eF0 (.scalar 0) sEnd8 = some s2 ∧
      s2.mem.getD 0 0 = sEnd8.E_L + 15 + 6.0984 ∧
      s2.w.getD 0 0 = wBeforeEnd eF0 (.scalar 0) sEnd8 0 + sEnd8.b ∧
      s2.w_tail.getD 0 0 = sEnd8.w_jump ∧
      s2.V_T.getD 0 0 = sEnd8.VT_jump + sEnd8.VT_rest ∧
      s2.counter.getD 0 0 = 0) := by
  have hend : endCond eF0 (.scalar 0) sEnd8 0 := by
    norm_num [endCond, endP, cnt2, cnt1, actP, sEnd8, mkDefault]
  exact ⟨⟨by decide, trivial, by decide, hend⟩,
    C6_end_reset eF0 (.scalar 0) sEnd8 0 (by decide) trivial (by decide) hend⟩

/-- Claim C7: a neuron with `counter = 0` whose post-Euler membrane does not
exceed `th` takes no spike branch: the call returns exactly the explicit
Euler values computed from the pre-call state, and the clock advances by `dt`. -/
theorem C7_quiescent_euler (eF : ℚ → ℚ) (v : ℚ) (s : aEIF) (i : ℕ)
    (hwf : wfS s) (hi : i < s.num) (hts : 0 < s.t_spike)
    (hc0 : s.counter.getD i 0 = 0)
    (hno : memE eF (.scalar v) s i ≤ s.th) :
    ∃ s2, step eF (.scalar v) s = some s2 ∧
      s2.mem.getD i 0 = s.mem.getD i 0 + s.dt * (1 / s.C *
        (-s.g_L * (s.mem.getD i 0 - s.E_L) +
         s.g_L * s.Delta_T * eF ((s.mem.getD i 0 - s.V_T.getD i 0) / s.Delta_T) -
         s.w.getD i 0 + s.w_tail.getD i 0 + (v + s.Iex))) ∧
      s2.w.getD i 0 = s.w.getD i 0 +
        s.dt * (1 / s.tau_w * (s.a * (s.mem.getD i 0 - s.E_L) - s.w.getD i 0)) ∧
      s2.w_tail.getD i 0 = s.w_tail.getD i 0 - s.w_tail.getD i 0 * s.dt / s.tau_wtail ∧
      s2.V_T.getD i 0 = s.VT_rest * s.dt / s.tau_VT +
        (1 - s.dt / s.tau_VT) * s.V_T.getD i 0 ∧
      s2.t = s.t + s.dt := by
  set m := memE eF (.scalar v) s i with hm
  have h1 : cnt1 s m 0 = 0 := by
    unfold cnt1
    rw [if_neg]
    rintro ⟨hlt, -⟩
    exact absurd hlt (not_lt.mpr hno)
  have h2 : ¬ actP s m 0 := by
    unfold actP
    rw [h1]
    rintro ⟨-, hcon⟩
    exact lt_irrefl 0 hcon
  have h3 : cnt2 s m 0 = 0 := by
    unfold cnt2
    rw [if_neg h2, h1]
  have h4 : ¬ endP s m 0 := by
    unfold endP
    rw [h3]
    push_cast
    rw [mul_zero]
    exact not_le.mpr hts
  refine ⟨postOf eF (.scalar v) s, step_eq eF (.scalar v) s hwf trivial, ?_, ?_, ?_, ?_, ?_⟩
  · rw [postOf_mem_getD eF (.scalar v) s i hwf hi, hc0]
    simp only [memCellVal]
    rw [if_neg h4, if_neg h2, if_neg (by rintro ⟨hlt, -⟩; exact absurd hlt (not_lt.mpr hno))]
    unfold memE memEulerF dmemF iEff
    ring
  · rw [postOf_w_getD eF (.scalar v) s i hwf hi, hc0]
    simp only [wCellVal]
    rw [if_neg h4, if_neg h2]
    unfold wEulerF dwDtF
    ring
  · rw [postOf_wt_getD eF (.scalar v) s i hwf hi, hc0]
    simp only [wtCellVal]
    rw [if_neg h4]
    unfold wtEulerF
    rfl
  · rw [postOf_vT_getD eF (.scalar v) s i hwf hi, hc0]
    simp only [vTCellVal]
    rw [if_neg h4]
    unfold vTEulerF
    rfl
  · exact postOf_t eF (.scalar v) s

theorem C7_quiescent_euler_witness :
    (wfS sTwo ∧ 0 < sTwo.num ∧ 0 < sTwo.t_spike ∧ sTwo.counter.getD 0 0 = 0 ∧
      memE eF0 (.scalar 0) sTwo 0 ≤ sTwo.th) ∧
    (∃ s2, step eF0 (.scalar 0) sTwo = some s2 ∧
      s2.mem.getD 0 0 = sTwo.mem.getD 0 0 + sTwo.dt * (1 / sTwo.C *
        (-sTwo.g_L * (sTwo.mem.getD 0 0 - sTwo.E_L) +
         sTwo.g_L * sTwo.Delta_T *
           eF0 ((sTwo.mem.getD 0 0 - sTwo.V_T.getD 0 0) / sTwo.Delta_T) -
         sTwo.w.getD 0 0 + sTwo.w_tail.getD 0 0 + (0 + sTwo.Iex))) ∧
      s2.w.getD 0 0 = sTwo.w.getD 0 0 +
        sTwo.dt * (1 / sTwo.tau_w * (sTwo.a * (sTwo.mem.getD 0 0 - sTwo.E_L) -
          sTwo.w.getD 0 0)) ∧
      s2.w_tail.getD 0 0 = sTwo.w_tail.getD 0 0 -
        sTwo.w_tail.getD 0 0 * sTwo.dt / sTwo.tau_wtail ∧
      s2.V_T.getD 0 0 = sTwo.VT_rest * sTwo.dt / sTwo.tau_VT +
        (1 - sTwo.dt / sTwo.tau_VT) * sTwo.V_T.getD 0 0 ∧
      s2.t = sTwo.t + sTwo.dt) := by
  have hno : memE eF0 (.scalar 0) sTwo 0 ≤ sTwo.th := by
    norm_num [memE, memEulerF, dmemF, iEff, sTwo, mkDefault, eF0]
  have hts : 0 < sTwo.t_spike := by norm_num [sTwo, mkDefault]
  exact ⟨⟨by decide, by decide, hts, by decide, hno⟩,
    C7_quiescent_euler eF0 0 sTwo 0 (by decide) (by decide) hts (by decide) hno⟩

/-- Claim C9 (amended): a neuron that takes the active branch but not the
end branch of the same call returns with its adaptation current `w` exactly
equal to its pre-call value (the branch undoes the Euler increment). -/
theorem C9_active_freezes_w (eF : ℚ → ℚ) (inp : Input) (s : aEIF) (i : ℕ)
    (hwf : wfS s) (hin : inOK inp s) (hi : i < s.num)
    (hact : activeCond eF inp s i) (hne : ¬ endCond eF inp s i) :
    ∃ s2, step eF inp s = some s2 ∧ s2.w.getD i 0 = s.w.getD i 0 := by
  have hact' : actP s (memE eF inp s i) (s.counter.getD i 0) := hact
  have hne' : ¬ endP s (memE eF inp s i) (s.counter.getD i 0) := hne
  refine ⟨postOf eF inp s, step_eq eF inp s hwf hin, ?_⟩
  rw [postOf_w_getD eF inp s i hwf hi]
  simp only [wCellVal]
  rw [if_neg hne', if_pos hact']
  unfold wEulerF
  ring

theorem C9_active_freezes_w_witness :
    (wfS sAct2 ∧ inOK (.scalar 0) sAct2 ∧ 0 < sAct2.num ∧
      activeCond eF0 (.scalar 0) sAct2 0 ∧ ¬ endCond eF0 (.scalar 0) sAct2 0) ∧
    (∃ s2, step eF0 (.scalar 0) sAct2 = some s2 ∧
      s2.w.getD 0 0 = sAct2.w.getD 0 0) := by
  have hact : activeCond eF0 (.scalar 0) sAct2 0 := by
    norm_num [activeCond, actP, cnt1, sAct2, mkDefault]
  have hne : ¬ endCond eF0 (.scalar 0) sAct2 0 := by
    norm_num [endCond, endP, cnt2, cnt1, actP, sAct2, mkDefault]
  exact ⟨⟨by decide, trivial, by decide, hact, hne⟩,
    C9_active_freezes_w eF0 (.scalar 0) sAct2 0 (by decide) trivial (by decide) hact hne⟩

/-- Claim C9 (counterexample): neuron 0 of `sAct7` takes the active branch,
but its adaptation current when the call returns is its pre-call value plus
`b`, not its pre-call value: the end branch of the same call added `b`. -/
theorem C9_counterexample :
    activeCond eF0 (.scalar 0) sAct7 0 ∧ sAct7.w.getD 0 0 = 1 ∧
    (step eF0 (.scalar 0) sAct7).map (fun s2 => s2.w.getD 0 0) =
      some (1 + 0.0805) ∧ ((1 : ℚ) + 0.0805 ≠ 1) := by
  refine ⟨?_, by decide, ?_, by norm_num⟩
  · norm_num [activeCond, actP, cnt1, sAct7, mkDefault]
  · rw [step_eq eF0 (.scalar 0) sAct7 (by decide) trivial, Option.map_some']
    rw [postOf_w_getD eF0 (.scalar 0) sAct7 0 (by decide) (by decide)]
    norm_num [wCellVal, actP, endP, cnt1, cnt2, wEulerF, dwDtF, sAct7, mkDefault]

/-- Claim C4 (amended): for an ensemble with at least two neurons, an input
vector whose length is neither `N` nor 1 makes the step call fail before any
state assignment; a length-1 vector instead broadcasts and does not fail. -/
theorem C4_shape_mismatch (eF : ℚ → ℚ) (s : aEIF) (xs : List ℚ)
    (hwf : wfS s) (h2 : 2 ≤ s.num) (hlen : xs.length ≠ s.num)
    (h1 : xs.length ≠ 1) : step eF (.vec xs) s = none := by
  obtain ⟨hm, hw, hwt, hvt, hc, hd⟩ := hwf
  rw [step]
  suffices h : updateVar eF (effI (.vec xs) s) s = none by rw [h]; rfl
  rw [updateVar]
  suffices h : dmemDt eF (effI (.vec xs) s) s = none by rw [h]; rfl
  rw [dmemDt, bop_eq_zipWith _ _ _ (by simp [hm, hvt])]
  simp only [Option.some_bind]
  rw [bop_eq_zipWith _ _ _ (by simp [hm, hvt])]
  simp only [Option.some_bind]
  rw [bop_eq_zipWith _ _ _ (by simp [hm, hvt, hw])]
  simp only [Option.some_bind]
  rw [bop_eq_zipWith _ _ _ (by simp [hm, hvt, hw, hwt])]
  simp only [Option.some_bind]
  simp only [effI, addI]
  have hbop : bop (· + ·)
      (List.zipWith (· + ·)
        (List.zipWith (fun x y => x - y)
          (List.zipWith (· + ·) (s.mem.map (fun m => -s.g_L * (m - s.E_L)))
            ((List.zipWith (fun x y => x - y) s.mem s.V_T).map
              (fun x => s.g_L * s.Delta_T * eF (x / s.Delta_T)))) s.w) s.w_tail)
      (xs.map (· + s.Iex)) = none := by
    rw [bop]
    rw [if_neg (by simp [hm, hvt, hw, hwt]; omega)]
    rw [if_neg (by simp [hm, hvt, hw, hwt]; omega)]
    rw [if_neg (by simpa using h1)]
  rw [hbop]
  rfl

theorem C4_counterexample :
    ([(0 : ℚ)].length ≠ sTwo.num) ∧ (step eF0 (.vec [0]) sTwo).isSome = true := by
  constructor
  · decide
  · rw [step_eq eF0 (.vec [0]) sTwo (by decide)
      (show [(0 : ℚ)].length = sTwo.num ∨ [(0 : ℚ)].length = 1 from Or.inr rfl)]
    rfl

theorem C4_shape_mismatch_witness :
    (wfS sTwo ∧ 2 ≤ sTwo.num ∧ ([(0 : ℚ), 0, 0].length ≠ sTwo.num) ∧
      ([(0 : ℚ), 0, 0].length ≠ 1)) ∧
    step eF0 (.vec [0, 0, 0]) sTwo = none :=
  ⟨⟨by decide, by decide, by decide, by decide⟩,
    C4_shape_mismatch eF0 sTwo [0, 0, 0] (by decide) (by decide) (by decide) (by decide)⟩

/-- Claim C8: after every successful well-shaped step, every counter `c`
satisfies `0 ≤ c` and `dt * c < t_spike`: a counter reaching the end
condition is reset to 0 within the same call. -/
theorem C8_counter_invariant (eF : ℚ → ℚ) (inp : Input) (s : aEIF)
    (hwf : wfS s) (hin : inOK inp s) (hdt : 0 < s.dt) (hts : 0 < s.t_spike)
    (hpos : ∀ c ∈ s.counter, 0 ≤ c) :
    ∀ s2, step eF inp s = some s2 →
      ∀ c ∈ s2.counter, 0 ≤ c ∧ s.dt * (c : ℚ) < s.t_spike := by
  intro s2 hstep c hcmem
  rw [step_eq eF inp s hwf hin, Option.some.injEq] at hstep
  subst hstep
  obtain ⟨j, hj, rfl⟩ := List.mem_iff_getElem.mp hcmem
  have hlc : (postOf eF inp s).counter.length = s.num :=
    (wfS_postOf eF inp s hwf).2.2.2.2.1
  have hjn : j < s.num := by omega
  have hgd : (postOf eF inp s).counter[j] = (postOf eF inp s).counter.getD j 0 := by
    rw [getD_eq_dite, dif_pos hj]
  rw [hgd, postOf_counter_getD eF inp s j hwf hjn]
  have hc0 : 0 ≤ s.counter.getD j 0 := by
    rcases lt_or_ge j s.counter.length with hlt | hge
    · rw [getD_eq_dite, dif_pos hlt]
      exact hpos _ (List.getElem_mem hlt)
    · rw [getD_eq_dite, dif_neg (not_lt.mpr hge)]
  by_cases hend : endP s (memE eF inp s j) (s.counter.getD j 0)
  · unfold cnt3
    rw [if_pos hend]
    refine ⟨le_refl 0, ?_⟩
    push_cast
    rw [mul_zero]
    exact hts
  · unfold cnt3
    rw [if_neg hend]
    have hlt2 : s.dt * ((cnt2 s (memE eF inp s j) (s.counter.getD j 0) : ℤ) : ℚ) <
        s.t_spike := not_le.mp hend
    refine ⟨?_, hlt2⟩
    unfold cnt2 cnt1
    split_ifs <;> omega

theorem C8_counter_invariant_witness :
    (wfS sTwo ∧ inOK (.scalar 0) sTwo ∧ 0 < sTwo.dt ∧ 0 < sTwo.t_spike ∧
      (∀ c ∈ sTwo.counter, 0 ≤ c)) ∧
    (∀ s2, step eF0 (.scalar 0) sTwo = some s2 →
      ∀ c ∈ s2.counter, 0 ≤ c ∧ sTwo.dt * (c : ℚ) < sTwo.t_spike) := by
  have hdt : 0 < sTwo.dt := by norm_num [sTwo, mkDefault]
  have hts : 0 < sTwo.t_spike := by norm_num [sTwo, mkDefault]
  exact ⟨⟨by decide, trivial, hdt, hts, by decide⟩,
    C8_counter_invariant eF0 (.scalar 0) sTwo (by decide) trivial hdt hts (by decide)⟩

/-- Claim C3 (counterexample): in the step on `sOnset`, neuron 0 matches
the onset condition, but the values observable when the call returns are the
active-branch waveform and `counter = 2` — not `mem = 24.4`, `counter = 1`:
the active mask of the same call overwrote the onset assignment. -/
theorem C3_counterexample :
    onsetCond eF0 (.scalar 0) sOnset 0 ∧
    (step eF0 (.scalar 0) sOnset).map
        (fun s2 => (s2.mem.getD 0 0, s2.counter.getD 0 0)) =
      some (32.862 - 8.462 * 3 / 7, 2) ∧
    ((32.862 : ℚ) - 8.462 * 3 / 7 ≠ 24.4) ∧ ((2 : ℤ) ≠ 1) := by
  have honm : sOnset.th < memE eF0 (.scalar 0) sOnset 0 := by
    norm_num [memE, memEulerF, dmemF, iEff, sOnset, mkDefault, eF0]
  have hon : onsetCond eF0 (.scalar 0) sOnset 0 := ⟨honm, by decide⟩
  refine ⟨hon, ?_, by norm_num, by decide⟩
  have h1 : cnt1 sOnset (memE eF0 (.scalar 0) sOnset 0) (sOnset.counter.getD 0 0) = 1 := by
    unfold cnt1
    rw [if_pos ⟨honm, by decide⟩]
  have hact : actP sOnset (memE eF0 (.scalar 0) sOnset 0) (sOnset.counter.getD 0 0) := by
    unfold actP
    rw [h1]
    constructor
    · push_cast
      norm_num [sOnset, mkDefault]
    · norm_num
  have hc2 : cnt2 sOnset (memE eF0 (.scalar 0) sOnset 0) (sOnset.counter.getD 0 0) = 2 := by
    unfold cnt2
    rw [if_pos hact, h1]
    decide
  have hend : ¬ endP sOnset (memE eF0 (.scalar 0) sOnset 0) (sOnset.counter.getD 0 0) := by
    unfold endP
    rw [hc2]
    push_cast
    norm_num [sOnset, mkDefault]
  rw [step_eq eF0 (.scalar 0) sOnset (by decide) trivial, Option.map_some']
  rw [postOf_mem_getD eF0 (.scalar 0) sOnset 0 (by decide) (by decide),
    postOf_counter_getD eF0 (.scalar 0) sOnset 0 (by decide) (by decide)]
  have hconut : conut sOnset = 7 := by norm_num [conut, sOnset, mkDefault]
  have hround : pyRound (conut sOnset / 2) = 4 := by
    rw [hconut]
    norm_num [pyRound]
  refine congrArg some (Prod.ext ?_ ?_)
  · simp only [memCellVal]
    rw [if_neg hend, if_pos hact, h1, hround, hconut]
    norm_num
  · simp only [cnt3]
    rw [if_neg hend, hc2]

/-- Claim C3 (amended): onset sets `mem = 24.4` and `counter = 1` within
the call, but when `2*dt < t_spike` the active mask of the same call
overwrites them: at return `mem` is the waveform value at counter 1 and
`counter = 2`. -/
theorem C3_onset_overwritten (eF : ℚ → ℚ) (inp : Input) (s : aEIF) (i : ℕ)
    (hwf : wfS s) (hin : inOK inp s) (hi : i < s.num)
    (hon : onsetCond eF inp s i) (hdt : 0 < s.dt) (h2dt : 2 * s.dt < s.t_spike) :
    ∃ s2, step eF inp s = some s2 ∧
      s2.mem.getD i 0 =
        32.862 - 8.462 * ((|pyRound (conut s / 2) - 1| : ℤ) : ℚ) / conut s ∧
      s2.counter.getD i 0 = 2 := by
  obtain ⟨honm, honc⟩ := hon
  have h1 : cnt1 s (memE eF inp s i) (s.counter.getD i 0) = 1 := by
    unfold cnt1
    rw [if_pos ⟨honm, honc⟩]
  have hact : actP s (memE eF inp s i) (s.counter.getD i 0) := by
    unfold actP
    rw [h1]
    refine ⟨?_, by norm_num⟩
    push_cast
    rw [mul_one]
    linarith
  have hc2 : cnt2 s (memE eF inp s i) (s.counter.getD i 0) = 2 := by
    unfold cnt2
    rw [if_pos hact, h1]
    decide
  have hend : ¬ endP s (memE eF inp s i) (s.counter.getD i 0) := by
    unfold endP
    rw [hc2]
    push_cast
    intro hcon
    linarith
  refine ⟨postOf eF inp s, step_eq eF inp s hwf hin, ?_, ?_⟩
  · rw [postOf_mem_getD eF inp s i hwf hi]
    simp only [memCellVal]
    rw [if_neg hend, if_pos hact, h1]
  · rw [postOf_counter_getD eF inp s i hwf hi]
    simp only [cnt3]
    rw [if_neg hend, hc2]

theorem C3_onset_overwritten_witness :
    (wfS sOnset ∧ inOK (.scalar 0) sOnset ∧ 0 < sOnset.num ∧
      onsetCond eF0 (.scalar 0) sOnset 0 ∧ 0 < sOnset.dt ∧
      2 * sOnset.dt < sOnset.t_spike) ∧
    (∃ s2, step eF0 (.scalar 0) sOnset = some s2 ∧
      s2.mem.getD 0 0 =
        32.862 - 8.462 * ((|pyRound (conut sOnset / 2) - 1| : ℤ) : ℚ) / conut sOnset ∧
      s2.counter.getD 0 0 = 2) := by
  have hon : onsetCond eF0 (.scalar 0) sOnset 0 := by
    refine ⟨?_, by decide⟩
    norm_num [memE, memEulerF, dmemF, iEff, sOnset, mkDefault, eF0]
  have hdt : (0 : ℚ) < sOnset.dt := by norm_num [sOnset, mkDefault]
  have h2dt : 2 * sOnset.dt < sOnset.t_spike := by norm_num [sOnset, mkDefault]
  exact ⟨⟨by decide, trivial, by decide, hon, hdt, h2dt⟩,
    C3_onset_overwritten eF0 (.scalar 0) sOnset 0 (by decide) trivial (by decide)
      hon hdt h2dt⟩

/-! ### The spike-duration trajectory (claim C1) -/

theorem step_counter_pos (eF : ℚ → ℚ) (inp : Input) (s : aEIF) (i : ℕ)
    (hwf : wfS s) (hdt : 0 < s.dt) (hi : i < s.num) (c : ℤ)
    (hc : s.counter.getD i 0 = c) (hcpos : 0 < c) :
    (postOf eF inp s).counter.getD i 0 =
      if c < ⌈s.t_spike / s.dt⌉ then
        (if ⌈s.t_spike / s.dt⌉ ≤ c + 1 then 0 else c + 1)
      else 0 := by
  rw [postOf_counter_getD eF inp s i hwf hi, hc, cnt3_pos s _ c hdt hcpos]

theorem step_counter_onset (eF : ℚ → ℚ) (inp : Input) (s : aEIF) (i : ℕ)
    (hwf : wfS s) (hdt : 0 < s.dt) (hi : i < s.num)
    (hc : s.counter.getD i 0 = 0) (hon : s.th < memE eF inp s i) :
    (postOf eF inp s).counter.getD i 0 =
      if (2 : ℤ) < ⌈s.t_spike / s.dt⌉ then 2 else 0 := by
  rw [postOf_counter_getD eF inp s i hwf hi, hc, cnt3_onset s _ hdt hon]

theorem stepsFrom_facts (eF : ℚ → ℚ) (ins : ℕ → ℚ) (s : aEIF) (hwf : wfS s) :
    ∀ j, wfS (stepsFrom eF ins s j) ∧
      (stepsFrom eF ins s j).dt = s.dt ∧
      (stepsFrom eF ins s j).t_spike = s.t_spike ∧
      (stepsFrom eF ins s j).num = s.num ∧
      step eF (.scalar (ins j)) (stepsFrom eF ins s j) =
        some (stepsFrom eF ins s (j + 1)) ∧
      stepsFrom eF ins s (j + 1) =
        postOf eF (.scalar (ins j)) (stepsFrom eF ins s j) := by
  intro j
  induction j with
  | zero =>
      refine ⟨hwf, rfl, rfl, rfl, ?_, ?_⟩
      · simp only [stepsFrom]
        rw [step_eq eF (.scalar (ins 0)) s hwf trivial]
        rfl
      · simp only [stepsFrom]
        rw [step_eq eF (.scalar (ins 0)) s hwf trivial]
        rfl
  | succ j ih =>
      obtain ⟨ihwf, ihdt, ihts, ihnum, ihstep, iheq⟩ := ih
      have hwfj1 : wfS (stepsFrom eF ins s (j + 1)) := by
        rw [iheq]
        exact wfS_postOf _ _ _ ihwf
      refine ⟨hwfj1, ?_, ?_, ?_, ?_, ?_⟩
      · rw [iheq, postOf_dt, ihdt]
      · rw [iheq, postOf_t_spike, ihts]
      · rw [iheq, postOf_num, ihnum]
      · rw [show stepsFrom eF ins s (j + 1 + 1) =
            (step eF (.scalar (ins (j + 1))) (stepsFrom eF ins s (j + 1))).getD
              (stepsFrom eF ins s (j + 1)) from rfl]
        rw [step_eq eF (.scalar (ins (j + 1))) _ hwfj1 trivial]
        rfl
      · rw [show stepsFrom eF ins s (j + 1 + 1) =
            (step eF (.scalar (ins (j + 1))) (stepsFrom eF ins s (j + 1))).getD
              (stepsFrom eF ins s (j + 1)) from rfl]
        rw [step_eq eF (.scalar (ins (j + 1))) _ hwfj1 trivial]
        rfl

/-- Claim C1 (amended): after a spike onset in the first call, the counter
stays nonzero for `(⌈t_spike/dt⌉ - 2).toNat` subsequent calls and is 0 right
after them: the onset call itself already runs the active branch (and, if
`t_spike ≤ 2*dt`, the end branch), so the window is two calls shorter than
`⌈t_spike/dt⌉`. -/
theorem C1_spike_duration (eF : ℚ → ℚ) (ins : ℕ → ℚ) (s : aEIF) (i : ℕ)
    (hwf : wfS s) (hdt : 0 < s.dt) (hts : 0 < s.t_spike) (hi : i < s.num)
    (hc0 : s.counter.getD i 0 = 0)
    (hon : s.th < memE eF (.scalar (ins 0)) s i) :
    (∀ j, step eF (.scalar (ins j)) (stepsFrom eF ins s j) =
        some (stepsFrom eF ins s (j + 1))) ∧
    (∀ j, 1 ≤ j → j ≤ (⌈s.t_spike / s.dt⌉ - 2).toNat →
      (stepsFrom eF ins s j).counter.getD i 0 ≠ 0) ∧
    (stepsFrom eF ins s ((⌈s.t_spike / s.dt⌉ - 2).toNat + 1)).counter.getD i 0 = 0 := by
  have facts := stepsFrom_facts eF ins s hwf
  set K : ℤ := ⌈s.t_spike / s.dt⌉ with hK
  set n : ℕ := (K - 2).toNat with hn
  have hstep1 : (stepsFrom eF ins s 1).counter.getD i 0 = if 2 < K then 2 else 0 := by
    rw [(facts 0).2.2.2.2.2]
    exact step_counter_onset eF (.scalar (ins 0)) s i hwf hdt hi hc0 hon
  have main : ∀ j, j ≤ n → (stepsFrom eF ins s (1 + j)).counter.getD i 0 =
      if j < n then ((j : ℤ) + 2) else 0 := by
    intro j
    induction j with
    | zero =>
        intro _
        rw [show 1 + 0 = 1 from rfl, hstep1]
        by_cases h2K : 2 < K
        · rw [if_pos h2K, if_pos (by omega : 0 < n)]
          norm_num
        · rw [if_neg h2K, if_neg (by omega : ¬ 0 < n)]
    | succ j ihj =>
        intro hjn
        have hj : j ≤ n := by omega
        have hcur := ihj hj
        rw [if_pos (by omega : j < n)] at hcur
        have heq := (facts (1 + j)).2.2.2.2.2
        have hwfj := (facts (1 + j)).1
        have hdtj : (stepsFrom eF ins s (1 + j)).dt = s.dt := (facts (1 + j)).2.1
        have htsj : (stepsFrom eF ins s (1 + j)).t_spike = s.t_spike :=
          (facts (1 + j)).2.2.1
        have hnumj : (stepsFrom eF ins s (1 + j)).num = s.num := (facts (1 + j)).2.2.2.1
        rw [show 1 + (j + 1) = (1 + j) + 1 from by omega, heq]
        rw [step_counter_pos eF (.scalar (ins (1 + j))) _ i hwfj
          (by rw [hdtj]; exact hdt) (by rw [hnumj]; exact hi) ((j : ℤ) + 2) hcur
          (by omega)]
        rw [hdtj, htsj, ← hK]
        have hKn : 3 ≤ K := by omega
        split_ifs <;> push_cast <;> omega
  refine ⟨fun j => (facts j).2.2.2.2.1, ?_, ?_⟩
  · intro j h1j hjn
    have hmj := main (j - 1) (by omega)
    rw [show 1 + (j - 1) = j from by omega] at hmj
    rw [hmj, if_pos (by omega : j - 1 < n)]
    intro hcon
    omega
  · have hmn := main n (le_refl n)
    rw [show 1 + n = n + 1 from by omega] at hmn
    rw [hmn, if_neg (lt_irrefl n)]

theorem C1_spike_duration_witness :
    (wfS sOnset ∧ 0 < sOnset.dt ∧ 0 < sOnset.t_spike ∧ 0 < sOnset.num ∧
      sOnset.counter.getD 0 0 = 0 ∧
      sOnset.th < memE eF0 (.scalar 0) sOnset 0) ∧
    ((∀ j, step eF0 (.scalar ((fun _ => (0 : ℚ)) j)) (stepsFrom eF0 (fun _ => 0) sOnset j) =
        some (stepsFrom eF0 (fun _ => 0) sOnset (j + 1))) ∧
    (∀ j, 1 ≤ j → j ≤ (⌈sOnset.t_spike / sOnset.dt⌉ - 2).toNat →
      (stepsFrom eF0 (fun _ => 0) sOnset j).counter.getD 0 0 ≠ 0) ∧
    (stepsFrom eF0 (fun _ => 0) sOnset
        ((⌈sOnset.t_spike / sOnset.dt⌉ - 2).toNat + 1)).counter.getD 0 0 = 0) := by
  have hon : sOnset.th < memE eF0 (.scalar 0) sOnset 0 := by
    norm_num [memE, memEulerF, dmemF, iEff, sOnset, mkDefault, eF0]
  have hdt : (0 : ℚ) < sOnset.dt := by norm_num [sOnset, mkDefault]
  have hts : (0 : ℚ) < sOnset.t_spike := by norm_num [sOnset, mkDefault]
  exact ⟨⟨by decide, hdt, hts, by decide, by decide, hon⟩,
    C1_spike_duration eF0 (fun _ => 0) sOnset 0 (by decide) hdt hts (by decide)
      (by decide) hon⟩

/-- Claim C1 (counterexample): with the default configuration
(`dt = 0.25`, `t_spike = 2`, so `⌈t_spike/dt⌉ = 8`), a neuron whose counter
becomes 1 (onset) during call 1 is back at 0 after only 6 subsequent calls
(7 calls in total), not after `⌈t_spike/dt⌉ = 8` subsequent calls. -/
theorem C1_counterexample :
    (sOnset.counter.getD 0 0 = 0 ∧ sOnset.th < memE eF0 (.scalar 0) sOnset 0) ∧
    ⌈sOnset.t_spike / sOnset.dt⌉ = 8 ∧
    (stepsFrom eF0 (fun _ => 0) sOnset 7).counter.getD 0 0 = 0 := by
  have hon : sOnset.th < memE eF0 (.scalar 0) sOnset 0 := by
    norm_num [memE, memEulerF, dmemF, iEff, sOnset, mkDefault, eF0]
  have hK : ⌈sOnset.t_spike / sOnset.dt⌉ = 8 := by
    norm_num [sOnset, mkDefault]
  have hdt : (0 : ℚ) < sOnset.dt := by norm_num [sOnset, mkDefault]
  refine ⟨⟨by decide, hon⟩, hK, ?_⟩
  have facts := stepsFrom_facts eF0 (fun _ => 0) sOnset (by decide)
  have advance : ∀ (j : ℕ) (c : ℤ),
      (stepsFrom eF0 (fun _ => 0) sOnset j).counter.getD 0 0 = c → 0 < c →
      (stepsFrom eF0 (fun _ => 0) sOnset (j + 1)).counter.getD 0 0 =
        if c < 8 then (if 8 ≤ c + 1 then 0 else c + 1) else 0 := by
    intro j c hc hcpos
    rw [(facts j).2.2.2.2.2]
    simp only []
    rw [step_counter_pos eF0 (.scalar 0) _ 0 (facts j).1
      (by rw [(facts j).2.1]; exact hdt)
      (by rw [(facts j).2.2.2.1]; decide) c hc hcpos]
    rw [(facts j).2.1, (facts j).2.2.1, hK]
  have h1 : (stepsFrom eF0 (fun _ => 0) sOnset 1).counter.getD 0 0 = 2 := by
    rw [(facts 0).2.2.2.2.2]
    simp only [stepsFrom]
    rw [step_counter_onset eF0 (.scalar 0) sOnset 0 (by decide) hdt (by decide)
      (by decide) hon, hK]
    norm_num
  have h2 := advance 1 2 h1 (by norm_num)
  rw [if_pos (by norm_num), if_neg (by norm_num)] at h2
  have h3 := advance 2 3 h2 (by norm_num)
  rw [if_pos (by norm_num), if_neg (by norm_num)] at h3
  have h4 := advance 3 4 h3 (by norm_num)
  rw [if_pos (by norm_num), if_neg (by norm_num)] at h4
  have h5 := advance 4 5 h4 (by norm_num)
  rw [if_pos (by norm_num), if_neg (by norm_num)] at h5
  have h6 := advance 5 6 h5 (by norm_num)
  rw [if_pos (by norm_num), if_neg (by norm_num)] at h6
  have h7 := advance 6 7 h6 (by norm_num)
  rw [if_pos (by norm_num), if_pos (by norm_num)] at h7
  exact h7

end AEIF
